import Mathlib

/-!
Verification of the `SubMaker` subtitle generator (`src/edge_tts/submaker.py`).

The embedding below translates the Python class `SubMaker` into pure Lean
definitions:

* a `SubMaker` object becomes a `SubMaker` structure value, and every mutating
  method becomes a function returning the updated structure;
* Python exceptions raised by `feed` become an `Option FeedError` paired with
  the (unchanged) state, mirroring the fact that `raise` happens before any
  mutation of the object;
* `timedelta(microseconds=t / 10)` is modelled as whole microseconds: Python's
  true division of an `int` by 10 followed by `timedelta`'s rounding of float
  microseconds to a whole microsecond (ties to even) gives
  `round_half_even(t / 10)`, which `tickToMicro` computes exactly on `Int`
  (float representation error, which only appears for magnitudes of the order
  of 2^53 ticks, i.e. tens of years, is outside the model);
* `str.lower`, `str.strip`, `str.split('\n')` and `len` are modelled by
  `strLower`, `trimChars`, `splitLines` and `String.length`, which agree with
  Python on the ASCII range; Python's substring test `a in b` is
  `strContains a b`.

The SRT composer (`srt_composer.py`, the external serializer) is not part of
the core source; it is modelled from the spec, see `compose`.
-/

namespace EdgeTTS

/-- An incoming event (`TTSChunk`): a `type` tag, the spoken text, and an
offset and duration in 100-nanosecond ticks. -/
structure TTSChunk where
  msgType : String
  text : String
  offset : Int
  duration : Int
deriving DecidableEq

/-- Models `timedelta(microseconds=t / 10)` for an integer number `t` of
100-nanosecond ticks: the exact quotient `t / 10` rounded to a whole
microsecond with ties to even (Python float true division followed by
`timedelta`'s `round`). -/
def tickToMicro (t : Int) : Int :=
  if t % 10 < 5 then t / 10
  else if 5 < t % 10 then t / 10 + 1
  else if (t / 10) % 2 = 0 then t / 10 else t / 10 + 1

/-- One subtitle cue (the `Subtitle` record handed to the composer):
1-based `index`, `start` and `end_` in whole microseconds (the model of
`datetime.timedelta`), and the text `content`. `end_` models the Python
field `end`. -/
structure Subtitle where
  index : Nat
  start : Int
  end_ : Int
  content : String
deriving DecidableEq

/-- Default value used with `List.getD` in index-wise statements. -/
def dummySub : Subtitle := ⟨0, 0, 0, ""⟩

/-- Default value used with `List.getD` in index-wise statements. -/
def dummyChunk : TTSChunk := ⟨"", "", 0, 0⟩

/-- The mutable state of a `SubMaker` object.  The fields mirror the Python
attributes `cues`, `type`, `original_text`, `_line_groups` and
`_all_words_buffer` (the attributes `_current_line_index` and
`_current_line_words` are written once in `__init__` and never read, so they
are omitted). -/
structure SubMaker where
  cues : List Subtitle
  type : Option String
  original_text : Option String
  line_groups : Option (List String)
  all_words_buffer : List Subtitle
deriving DecidableEq

/-- Python's `str.lower`, modelled on the character list (agrees with Python
on the ASCII range, which `Char.toLower` maps exactly as Python does). -/
def strLower (s : String) : String :=
  ⟨s.data.map Char.toLower⟩

/-- Python's `str.strip` on a character list: drop leading and trailing
whitespace. -/
def trimChars (l : List Char) : List Char :=
  (((l.dropWhile Char.isWhitespace).reverse).dropWhile Char.isWhitespace).reverse

/-- Python's `str.split('\n')` on a character list: split at every newline,
keeping empty pieces (`"".split('\n') == [""]`). -/
def splitLines : List Char → List (List Char)
  | [] => [[]]
  | c :: rest =>
      if c = '\n' then [] :: splitLines rest
      else
        match splitLines rest with
        | [] => [[c]]
        | g :: gs => (c :: g) :: gs

/-- The reference lines extracted from the original text:
`[line.strip() for line in original_text.split('\n') if line.strip()]`. -/
def linesOf (t : String) : List String :=
  ((splitLines t.data).map (fun cs => (⟨trimChars cs⟩ : String))).filter (fun l => l != "")

/-- `SubMaker.__init__`: Python's `if original_text:` treats both `None` and
the empty string as falsy, so `_line_groups` stays `None` in those cases. -/
def mkSubMaker (original_text : Option String) : SubMaker :=
  { cues := []
    type := none
    original_text := original_text
    line_groups :=
      match original_text with
      | some t => if t = "" then none else some (linesOf t)
      | none => none
    all_words_buffer := [] }

/-- The two exceptions `feed` can raise (both `ValueError` in Python; the
spec names them `InvalidEventKind` and `MixedEventKind`). -/
inductive FeedError where
  | InvalidEventKind
  | MixedEventKind
deriving DecidableEq

/-- The `Subtitle` built by `feed` for the message at 0-based buffer
position `n`: `index = len(buffer) + 1`, `start = offset` ticks and
`end = offset + duration` ticks converted to microseconds. -/
def mkSubtitle (n : Nat) (m : TTSChunk) : Subtitle :=
  { index := n + 1
    start := tickToMicro m.offset
    end_ := tickToMicro (m.offset + m.duration)
    content := m.text }

/-- `SubMaker.feed`: validates the message type, records or checks the
session kind, and appends the converted subtitle to the buffer.  The first
component is the raised exception, if any; the second is the state of the
object after the call (unchanged when an exception is raised, since the
Python code raises before mutating anything). -/
def feed (s : SubMaker) (m : TTSChunk) : Option FeedError × SubMaker :=
  if ¬(m.msgType = "WordBoundary" ∨ m.msgType = "SentenceBoundary") then
    (some .InvalidEventKind, s)
  else
    match s.type with
    | none =>
        let s' := { s with type := some m.msgType }
        (none, { s' with all_words_buffer :=
                   s'.all_words_buffer ++ [mkSubtitle s'.all_words_buffer.length m] })
    | some t =>
        if t ≠ m.msgType then (some .MixedEventKind, s)
        else
          (none, { s with all_words_buffer :=
                     s.all_words_buffer ++ [mkSubtitle s.all_words_buffer.length m] })

/-- `feed` as an `Except`, convenient for feeding a list of messages. -/
def feedE (s : SubMaker) (m : TTSChunk) : Except FeedError SubMaker :=
  match feed s m with
  | (some e, _) => Except.error e
  | (none, s') => Except.ok s'

/-- Feed a list of messages in order, stopping at the first exception. -/
def feedMany (s : SubMaker) (ms : List TTSChunk) : Except FeedError SubMaker :=
  ms.foldlM feedE s

/-- Python's substring test `pat in s` on the underlying character lists. -/
def containsSub (pat : List Char) : List Char → Bool
  | [] => pat.isEmpty
  | c :: rest => pat.isPrefixOf (c :: rest) || containsSub pat rest

/-- Python's `pat in s` for strings. -/
def strContains (pat s : String) : Bool :=
  containsSub pat.data s.data

/-- The two stop conditions of the word-consuming loop of
`_group_words_by_lines`, checked after a word has been appended to
`accumulated_text`:
`accumulated_text.lower() == line_text_lower`, or
`len(accumulated_text) >= len(line_text) and line_text_lower in accumulated_text.lower()`. -/
def stopCond (line acc : String) : Bool :=
  strLower acc = strLower line
    || (decide (line.length ≤ acc.length) && strContains (strLower line) (strLower acc))

/-- The accumulation `accumulated_text += (" " if accumulated_text else "") + word`
applied to a list of words in order, starting from the empty string. -/
def accumJoin (ws : List String) : String :=
  ws.foldl (fun a w => a ++ (if a = "" then "" else " ") ++ w) ""

/-- The inner `while` loop of `_group_words_by_lines` for one reference line:
consumes buffered words one at a time, returning the collected
`line_words` (their contents) and the unconsumed remainder of the buffer.
`acc` is the current `accumulated_text`. -/
def consumeLoop (line : String) : List Subtitle → String → List String × List Subtitle
  | [], _ => ([], [])
  | w :: rest, acc =>
      let acc' := acc ++ (if acc = "" then "" else " ") ++ w.content
      if stopCond line acc' then ([w.content], rest)
      else
        let p := consumeLoop line rest acc'
        (w.content :: p.1, p.2)

/-- The `all_words_content` list built by `_group_words_by_lines`: one
space-joined string per reference line, followed by each remaining
unconsumed word as its own entry. -/
def groupWords : List String → List Subtitle → List String
  | [], words => words.map (fun w => w.content)
  | l :: ls, words =>
      String.intercalate " " (consumeLoop l words "").1
        :: groupWords ls (consumeLoop l words "").2

/-- The same grouping, keeping each entry as the list of words it came from
(a reference line's consumed words, or a singleton for a leftover word).
`groupWords` is its image under space-joining, see `groupWords_eq_lists`. -/
def groupWordLists : List String → List Subtitle → List (List String)
  | [], words => words.map (fun w => [w.content])
  | l :: ls, words =>
      (consumeLoop l words "").1 :: groupWordLists ls (consumeLoop l words "").2

/-- The unconsumed remainder of the buffer after all reference lines have
been processed. -/
def restAfter : List String → List Subtitle → List Subtitle
  | [], words => words
  | l :: ls, words => restAfter ls (consumeLoop l words "").2

/-- `SubMaker._group_words_by_lines`: builds one combined cue spanning the
whole buffer and appends it to `cues`; returns immediately when the buffer
or the line list is empty (`if not self._all_words_buffer or not self._line_groups`). -/
def group_words_by_lines (s : SubMaker) : SubMaker :=
  match s.line_groups, s.all_words_buffer with
  | some (l :: ls), w :: ws =>
      { s with cues := s.cues ++
          [{ index := 1
             start := w.start
             end_ := (ws.getLastD w).end_
             content := String.intercalate "\n" (groupWords (l :: ls) (w :: ws)) }] }
  | _, _ => s

/-- Python truthiness of `self._line_groups` (`None` and `[]` are falsy). -/
def truthyLines (s : SubMaker) : Bool :=
  match s.line_groups with
  | some (_ :: _) => true
  | _ => false

/-- Zero-pad a natural number to at least two digits. -/
def pad2 (n : Nat) : String :=
  if n < 10 then "0" ++ toString n else toString n

/-- Zero-pad a natural number to at least three digits. -/
def pad3 (n : Nat) : String :=
  if n < 10 then "00" ++ toString n
  else if n < 100 then "0" ++ toString n
  else toString n

/-- Render a microsecond value as an SRT timestamp. -/
def fmtTimestamp (micro : Int) : String :=
  let msTotal := (micro.ediv 1000).toNat
  let ms := msTotal % 1000
  let sTotal := msTotal / 1000
  let ss := sTotal % 60
  let mTotal := sTotal / 60
  let mm := mTotal % 60
  let hh := mTotal / 60
  pad2 hh ++ ":" ++ pad2 mm ++ ":" ++ pad2 ss ++ "," ++ pad3 ms

/-- Modelled from the spec: the external SRT composer (`srt_composer.py`,
`compose`, not under `src/`).  Renders each cue as its `index`, a timestamp
range `HH:MM:SS,mmm --> HH:MM:SS,mmm`, then its `content`, the blocks
separated by blank lines. -/
def compose (cues : List Subtitle) : String :=
  String.intercalate "\n\n"
    (cues.map (fun c =>
      toString c.index ++ "\n" ++ fmtTimestamp c.start ++ " --> "
        ++ fmtTimestamp c.end_ ++ "\n" ++ c.content))

/-- `SubMaker.get_srt` (also `SubMaker.__str__`): chooses between the
grouping branch (Case B) and the identity branch (Case A), then composes.
Returns the updated object together with the SRT string. -/
def get_srt (s : SubMaker) : SubMaker × String :=
  let s' :=
    if truthyLines s ∧ s.type = some "WordBoundary" ∧ s.all_words_buffer ≠ [] then
      group_words_by_lines s
    else
      { s with cues := s.all_words_buffer }
  (s', compose s'.cues)

/-- The buffer produced by feeding the messages `ms` when the buffer already
holds `n` subtitles: the `i`-th message becomes `mkSubtitle (n + i)`. -/
def bufferOf (n : Nat) : List TTSChunk → List Subtitle
  | [] => []
  | m :: ms => mkSubtitle n m :: bufferOf (n + 1) ms

/-- The three WordBoundary events of the spec's concrete scenario. -/
def eHello : TTSChunk := ⟨"WordBoundary", "Hello", 0, 1000000⟩

/-- Second event of the concrete scenario. -/
def eWorld : TTSChunk := ⟨"WordBoundary", "world", 1000000, 1000000⟩

/-- Third event of the concrete scenario. -/
def eFoo : TTSChunk := ⟨"WordBoundary", "foo", 2000000, 1000000⟩

/-- The original text of the concrete scenario. -/
def cTxt : String := "Hello world\nfoo"

/-- The session of the concrete scenario after the three feeds. -/
def sC1 : SubMaker :=
  (feedMany (mkSubMaker (some cTxt)) [eHello, eWorld, eFoo]).toOption.getD (mkSubMaker none)

/-- A SentenceBoundary event used in concrete instantiations. -/
def sb1 : TTSChunk := ⟨"SentenceBoundary", "One.", 0, 1000000⟩

/-- A second SentenceBoundary event used in concrete instantiations. -/
def sb2 : TTSChunk := ⟨"SentenceBoundary", "Two.", 1000000, 2000000⟩

/-- A session fed two SentenceBoundary events and no reference text. -/
def sC4 : SubMaker :=
  (feedMany (mkSubMaker none) [sb1, sb2]).toOption.getD (mkSubMaker none)

/-- A session fed one SentenceBoundary event and no reference text. -/
def sC8 : SubMaker :=
  (feedMany (mkSubMaker none) [sb1]).toOption.getD (mkSubMaker none)

/-- A WordBoundary event used in concrete instantiations. -/
def wbMsg : TTSChunk := ⟨"WordBoundary", "Hello", 0, 1000000⟩

/-- A message with an unrecognized type tag. -/
def badMsg : TTSChunk := ⟨"Metadata", "x", 0, 0⟩

/-- A session that has recorded the WordBoundary kind. -/
def sWB : SubMaker := (feed (mkSubMaker none) wbMsg).2

/-- A Case B session: reference line `"Hello"`, one WordBoundary event. -/
def sC3 : SubMaker := (feed (mkSubMaker (some "Hello")) wbMsg).2

/-- An event whose offset, 15 ticks, is not a multiple of 10. -/
def chunk15 : TTSChunk := ⟨"WordBoundary", "x", 15, 0⟩

/-! ### Helper lemmas -/

theorem tickToMicro_mono {a b : Int} (h : a ≤ b) : tickToMicro a ≤ tickToMicro b := by
  unfold tickToMicro
  split_ifs <;> omega

theorem accumJoin_append (pre : List String) (w : String) :
    accumJoin (pre ++ [w]) =
      accumJoin pre ++ (if accumJoin pre = "" then "" else " ") ++ w := by
  simp [accumJoin, List.foldl_append]

theorem bufferOf_length (ms : List TTSChunk) : ∀ n, (bufferOf n ms).length = ms.length := by
  induction ms with
  | nil => intro n; rfl
  | cons m ms ih => intro n; simp [bufferOf, ih]

theorem bufferOf_map_start (ms : List TTSChunk) :
    ∀ n, (bufferOf n ms).map (fun c => c.start) = ms.map (fun m => tickToMicro m.offset) := by
  induction ms with
  | nil => intro n; rfl
  | cons m ms ih => intro n; simp [bufferOf, mkSubtitle, ih]

theorem bufferOf_mem {c : Subtitle} (ms : List TTSChunk) :
    ∀ n, c ∈ bufferOf n ms → ∃ j m, m ∈ ms ∧ c = mkSubtitle j m := by
  induction ms with
  | nil => intro n h; simp [bufferOf] at h
  | cons m ms ih =>
      intro n h
      rcases List.mem_cons.mp h with h | h
      · exact ⟨n, m, List.mem_cons_self m ms, h⟩
      · obtain ⟨j, m', hm', hc⟩ := ih (n + 1) h
        exact ⟨j, m', List.mem_cons_of_mem m hm', hc⟩

theorem bufferOf_getLastD_end (ms : List TTSChunk) :
    ∀ n j m0, ((bufferOf n ms).getLastD (mkSubtitle j m0)).end_ =
      tickToMicro ((ms.getLastD m0).offset + (ms.getLastD m0).duration) := by
  induction ms with
  | nil => intro n j m0; rfl
  | cons m ms ih =>
      intro n j m0
      simp only [bufferOf, List.getLastD_cons]
      exact ih (n + 1) n m

theorem bufferOf_getD (ms : List TTSChunk) :
    ∀ n i, i < ms.length →
      (bufferOf n ms).getD i dummySub = mkSubtitle (n + i) (ms.getD i dummyChunk) := by
  induction ms with
  | nil => intro n i h; simp at h
  | cons m ms ih =>
      intro n i h
      cases i with
      | zero => simp [bufferOf]
      | succ i =>
          simp only [bufferOf, List.getD_cons_succ]
          rw [ih (n + 1) i (by simpa using h)]
          have : n + 1 + i = n + (i + 1) := by omega
          rw [this]

theorem getLastD_mem_cons' {α : Type} (ms : List α) : ∀ m0 : α, ms.getLastD m0 ∈ m0 :: ms := by
  induction ms with
  | nil => intro m0; simp
  | cons m ms ih =>
      intro m0
      rw [List.getLastD_cons]
      rcases List.mem_cons.mp (ih m) with h | h
      · rw [h]; exact List.mem_cons_of_mem m0 (List.mem_cons_self m ms)
      · exact List.mem_cons_of_mem m0 (List.mem_cons_of_mem m h)

theorem feed_valid_ok (s : SubMaker) (m : TTSChunk) (k : String)
    (hk : k = "WordBoundary" ∨ k = "SentenceBoundary") (hm : m.msgType = k)
    (hs : s.type = none ∨ s.type = some k) :
    feed s m = (none,
      { s with type := some k
               all_words_buffer :=
                 s.all_words_buffer ++ [mkSubtitle s.all_words_buffer.length m] }) := by
  rcases s with ⟨cues, ty, ot, lg, buf⟩
  rcases hs with hs | hs <;> simp only at hs <;> subst hs <;>
    simp [feed, hm, hk.symm] <;> rcases hk with hk | hk <;> simp [hk]

theorem feedMany_valid (k : String) (hk : k = "WordBoundary" ∨ k = "SentenceBoundary") :
    ∀ (ms : List TTSChunk) (s : SubMaker), (∀ m ∈ ms, m.msgType = k) →
      (s.type = none ∨ s.type = some k) →
      feedMany s ms = Except.ok
        { s with type := if ms.isEmpty then s.type else some k
                 all_words_buffer :=
                   s.all_words_buffer ++ bufferOf s.all_words_buffer.length ms } := by
  intro ms
  induction ms with
  | nil =>
      intro s _ _
      simp only [feedMany, List.foldlM_nil, bufferOf, List.append_nil]
      rfl
  | cons m ms ih =>
      intro s hall hs
      have hm : m.msgType = k := hall m (List.mem_cons_self m ms)
      have hrest : ∀ m' ∈ ms, m'.msgType = k := fun m' hm' => hall m' (List.mem_cons_of_mem m hm')
      rw [feedMany, List.foldlM_cons]
      have hf := feed_valid_ok s m k hk hm hs
      rw [feedE, hf]
      show feedMany _ ms = _
      rw [ih _ hrest (Or.inr rfl)]
      rcases s with ⟨cues, ty, ot, lg, buf⟩
      simp [bufferOf, List.append_assoc]

theorem chain_le_getLastD (ms : List TTSChunk) :
    ∀ m0, List.Chain' (fun a b => a.offset ≤ b.offset) (m0 :: ms) →
      m0.offset ≤ (ms.getLastD m0).offset := by
  induction ms with
  | nil => intro m0 _; simp [List.getLastD]
  | cons m ms ih =>
      intro m0 h
      rw [List.chain'_cons] at h
      simp only [List.getLastD_cons]
      exact le_trans h.1 (ih m h.2)

theorem consumeLoop_spec (line : String) :
    ∀ (words : List Subtitle) (pre : List String),
      ∃ wc : List Subtitle,
        words = wc ++ (consumeLoop line words (accumJoin pre)).2 ∧
        (consumeLoop line words (accumJoin pre)).1 = wc.map (fun w => w.content) ∧
        (wc = [] ↔ words = []) ∧
        (∀ k, 0 < k → k < wc.length →
          stopCond line (accumJoin (pre ++ (wc.take k).map (fun w => w.content))) = false) ∧
        (stopCond line (accumJoin (pre ++ wc.map (fun w => w.content))) = true ∨
          (consumeLoop line words (accumJoin pre)).2 = []) := by
  intro words
  induction words with
  | nil =>
      intro pre
      exact ⟨[], rfl, rfl, by simp, fun k h1 h2 => by simp at h2, Or.inr rfl⟩
  | cons w rest ih =>
      intro pre
      have hred : consumeLoop line (w :: rest) (accumJoin pre) =
          if stopCond line (accumJoin (pre ++ [w.content])) = true then ([w.content], rest)
          else (w.content :: (consumeLoop line rest (accumJoin (pre ++ [w.content]))).1,
                (consumeLoop line rest (accumJoin (pre ++ [w.content]))).2) := by
        rw [accumJoin_append]
        rfl
      rw [hred]
      by_cases hstop : stopCond line (accumJoin (pre ++ [w.content])) = true
      · rw [if_pos hstop]
        exact ⟨[w], by simp, by simp, by simp, fun k h1 h2 => by simp at h2; omega,
          Or.inl (by simpa using hstop)⟩
      · rw [if_neg hstop]
        obtain ⟨wc', h1, h2, _h3, h4, h5⟩ := ih (pre ++ [w.content])
        refine ⟨w :: wc', ?_, ?_, by simp, ?_, ?_⟩
        · simp only [List.cons_append]
          exact congrArg (List.cons w) h1
        · simp only [List.map_cons]
          exact congrArg (List.cons w.content) h2
        · intro k hk0 hklen
          cases k with
          | zero => omega
          | succ j =>
              rw [List.take_succ_cons, List.map_cons, List.append_cons]
              cases j with
              | zero =>
                  simp only [List.take_zero, List.map_nil, List.append_nil]
                  exact Bool.eq_false_iff.mpr hstop
              | succ i =>
                  exact h4 (i + 1) (Nat.succ_pos i) (by simp at hklen; omega)
        · rcases h5 with h5 | h5
          · exact Or.inl (by rw [List.map_cons, List.append_cons]; exact h5)
          · exact Or.inr h5

theorem groupWords_nil_buffer : ∀ lines : List String,
    groupWords lines [] = lines.map (fun _ => "") := by
  intro lines
  induction lines with
  | nil => rfl
  | cons l ls ih =>
      simp only [groupWords, consumeLoop, List.map_cons]
      rw [ih]
      rfl

theorem groupWords_eq_lists : ∀ (lines : List String) (ws : List Subtitle),
    groupWords lines ws = (groupWordLists lines ws).map (fun g => String.intercalate " " g) := by
  intro lines
  induction lines with
  | nil =>
      intro ws
      simp only [groupWords, groupWordLists, List.map_map]
      rfl
  | cons l ls ih =>
      intro ws
      simp only [groupWords, groupWordLists, List.map_cons]
      rw [ih]

theorem groupWordLists_flatten : ∀ (lines : List String) (ws : List Subtitle),
    (groupWordLists lines ws).flatten = ws.map (fun w => w.content) := by
  intro lines
  induction lines with
  | nil =>
      intro ws
      simp only [groupWordLists]
      induction ws with
      | nil => rfl
      | cons w ws ihw => simp [ihw]
  | cons l ls ih =>
      intro ws
      obtain ⟨wc, h1, h2, _, _, _⟩ := consumeLoop_spec l ws []
      rw [show accumJoin ([] : List String) = "" from rfl] at h1 h2
      simp only [groupWordLists, List.flatten_cons]
      rw [h2, ih]
      conv_rhs => rw [h1]
      rw [List.map_append]

theorem groupWords_restAfter : ∀ (lines : List String) (ws : List Subtitle),
    ∃ parts : List String,
      groupWords lines ws = parts ++ (restAfter lines ws).map (fun w => w.content) ∧
      parts.length = lines.length := by
  intro lines
  induction lines with
  | nil =>
      intro ws
      exact ⟨[], by simp [groupWords, restAfter], rfl⟩
  | cons l ls ih =>
      intro ws
      obtain ⟨parts, hp, hl⟩ := ih (consumeLoop l ws "").2
      refine ⟨String.intercalate " " (consumeLoop l ws "").1 :: parts, ?_, by simp [hl]⟩
      simp only [groupWords, restAfter, List.cons_append]
      rw [hp]

theorem get_srt_caseB (s : SubMaker) (l : String) (ls : List String) (w : Subtitle)
    (ws : List Subtitle) (hlg : s.line_groups = some (l :: ls))
    (hty : s.type = some "WordBoundary") (hbuf : s.all_words_buffer = w :: ws) :
    (get_srt s).1.cues = s.cues ++
      [{ index := 1
         start := w.start
         end_ := (ws.getLastD w).end_
         content := String.intercalate "\n" (groupWords (l :: ls) (w :: ws)) }] := by
  rcases s with ⟨cues, ty, ot, lg, buf⟩
  simp only at hlg hty hbuf
  subst hlg
  subst hty
  subst hbuf
  simp [get_srt, truthyLines, group_words_by_lines]

theorem get_srt_caseA (s : SubMaker)
    (h : truthyLines s = false ∨ s.type ≠ some "WordBoundary" ∨ s.all_words_buffer = []) :
    (get_srt s).1.cues = s.all_words_buffer := by
  have hcond : ¬(truthyLines s ∧ s.type = some "WordBoundary" ∧ s.all_words_buffer ≠ []) := by
    rcases h with h | h | h <;> simp [h]
  simp [get_srt, hcond]

theorem truthyLines_false (s : SubMaker)
    (h : s.line_groups = none ∨ s.line_groups = some []) : truthyLines s = false := by
  unfold truthyLines
  rcases h with h | h <;> rw [h]

/-! ### Claims -/

/-- C5: `feed` fails with `InvalidEventKind` exactly when the event's type is
neither `"WordBoundary"` nor `"SentenceBoundary"`; otherwise, with a recorded
kind differing from the event's type it fails with `MixedEventKind`; the
first valid event always succeeds and records its kind; on failure the state
is unchanged, and on success exactly one converted event is appended to the
buffer (and the other fields are untouched). -/
theorem claim_C5 (s : SubMaker) (m : TTSChunk) :
    ((feed s m).1 = some FeedError.InvalidEventKind ↔
      ¬(m.msgType = "WordBoundary" ∨ m.msgType = "SentenceBoundary")) ∧
    (∀ t, s.type = some t →
      ((feed s m).1 = some FeedError.MixedEventKind ↔
        ((m.msgType = "WordBoundary" ∨ m.msgType = "SentenceBoundary") ∧ t ≠ m.msgType))) ∧
    (s.type = none → (m.msgType = "WordBoundary" ∨ m.msgType = "SentenceBoundary") →
      ((feed s m).1 = none ∧ (feed s m).2.type = some m.msgType)) ∧
    (∀ e, (feed s m).1 = some e → (feed s m).2 = s) ∧
    ((feed s m).1 = none →
      (feed s m).2.all_words_buffer =
          s.all_words_buffer ++ [mkSubtitle s.all_words_buffer.length m] ∧
        (feed s m).2.cues = s.cues ∧ (feed s m).2.line_groups = s.line_groups) := by
  by_cases hv : m.msgType = "WordBoundary" ∨ m.msgType = "SentenceBoundary"
  · rcases hty : s.type with _ | t
    · have hf : feed s m = (none,
          { s with type := some m.msgType
                   all_words_buffer :=
                     s.all_words_buffer ++ [mkSubtitle s.all_words_buffer.length m] }) := by
        simp [feed, hv, hty]
      rw [hf]
      simp [hty, hv]
    · by_cases ht : t = m.msgType
      · have hf : feed s m = (none,
            { s with all_words_buffer :=
                       s.all_words_buffer ++ [mkSubtitle s.all_words_buffer.length m] }) := by
          simp [feed, hv, hty, ht]
        rw [hf]
        simp [hty, hv, ht]
      · have hf : feed s m = (some FeedError.MixedEventKind, s) := by
          simp [feed, hv, hty, ht]
        rw [hf]
        simp [hty, hv, ht]
  · have hf : feed s m = (some FeedError.InvalidEventKind, s) := by
      simp [feed, hv]
    rw [hf]
    simp [hv]

/-- Witness for C5: on a session that has recorded the WordBoundary kind,
a SentenceBoundary event raises `MixedEventKind` and leaves the state
unchanged, and an unrecognized type raises `InvalidEventKind`. -/
theorem claim_C5_witness :
    (feed sWB sb1).1 = some FeedError.MixedEventKind ∧
    (feed sWB badMsg).1 = some FeedError.InvalidEventKind ∧
    (feed sWB sb1).2 = sWB :=
  ⟨((claim_C5 sWB sb1).2.1 "WordBoundary" (by decide)).mpr (by decide),
   (claim_C5 sWB badMsg).1.mpr (by decide),
   (claim_C5 sWB sb1).2.2.2.1 FeedError.MixedEventKind
     (((claim_C5 sWB sb1).2.1 "WordBoundary" (by decide)).mpr (by decide))⟩

/-- C3 is violated by the code (a bug): on a Case B session, the first call
to `get_srt` appends one combined cue to `cues`, and the second call appends
a second copy instead of recomputing, so repeated finalization does not
return the same result: the cue list doubles and the composed SRT string
changes. -/
theorem claim_C3 :
    (get_srt sC3).1.cues.length = 1 ∧
    (get_srt (get_srt sC3).1).1.cues.length = 2 ∧
    ¬((get_srt (get_srt sC3).1).1.cues = (get_srt sC3).1.cues) ∧
    ¬((get_srt (get_srt sC3).1).2 = (get_srt sC3).2) := by
  decide

/-- Counterexample for C7: the event offset 15 ticks is converted to 2 whole
microseconds (1.5 µs rounded to even by `timedelta`), not to the exact value
`15 / 10 = 1.5` µs the claim asserts. -/
theorem claim_C7_cex :
    (feed (mkSubMaker none) chunk15).2.all_words_buffer.map (fun c => c.start) = [2] ∧
    ¬((2 : ℚ) = (chunk15.offset : ℚ) / 10) := by
  constructor
  · decide
  · norm_num [chunk15]

/-- C7 (amended): the concrete scenario holds exactly — feeding the three
WordBoundary events with original text `"Hello world\nfoo"` yields one cue
with start 0 µs, end 300000 µs (0.3 s) and content `"Hello world\nfoo"` —
and the tick conversion is exactly `ticks / 10` microseconds whenever the
tick count is a multiple of 10 (as are all values in the scenario);
otherwise it rounds to the nearest whole microsecond, ties to even. -/
theorem claim_C7 :
    ((feedMany (mkSubMaker (some cTxt)) [eHello, eWorld, eFoo]).toOption.map
        (fun s => (get_srt s).1.cues)
      = some [{ index := 1, start := 0, end_ := 300000, content := "Hello world\nfoo" }]) ∧
    (∀ t : Int, t % 10 = 0 → (tickToMicro t : ℚ) = (t : ℚ) / 10) := by
  constructor
  · decide
  · intro t ht
    obtain ⟨u, hu⟩ : ∃ u : Int, t = 10 * u := ⟨t / 10, by omega⟩
    subst hu
    have h2 : (10 * u) / 10 = u := by omega
    unfold tickToMicro
    rw [if_pos (by omega : (10 * u) % 10 < 5), h2]
    push_cast
    ring

/-- Witness for C7: 30 ticks convert exactly to 3 microseconds. -/
theorem claim_C7_witness : (tickToMicro 30 : ℚ) = ((30 : Int) : ℚ) / 10 :=
  claim_C7.2 30 (by decide)

/-- C2: greedy per-line stop conditions.  The stop test is exactly
case-insensitive equality, or (length ≥ reference length and containment);
for each line the consumed words form a prefix of the remaining buffer whose
strict sub-prefixes never satisfy the stop test, consumption stops either
with the stop test satisfied or with the buffer exhausted, at least one word
is consumed when the buffer is non-empty, and later lines only ever see the
unconsumed remainder (no backtracking). -/
theorem claim_C2 :
    (∀ line acc : String, stopCond line acc = true ↔
      (strLower acc = strLower line ∨
        (line.length ≤ acc.length ∧ strContains (strLower line) (strLower acc) = true))) ∧
    (∀ (line : String) (words : List Subtitle),
      ∃ wc : List Subtitle,
        words = wc ++ (consumeLoop line words "").2 ∧
        (consumeLoop line words "").1 = wc.map (fun w => w.content) ∧
        (wc = [] ↔ words = []) ∧
        (∀ k, 0 < k → k < wc.length →
          stopCond line (accumJoin ((wc.take k).map (fun w => w.content))) = false) ∧
        (stopCond line (accumJoin (wc.map (fun w => w.content))) = true ∨
          (consumeLoop line words "").2 = [])) ∧
    (∀ (l : String) (ls : List String) (ws : List Subtitle),
      groupWords (l :: ls) ws =
        String.intercalate " " (consumeLoop l ws "").1
          :: groupWords ls (consumeLoop l ws "").2) := by
  refine ⟨?_, ?_, ?_⟩
  · intro line acc
    simp [stopCond]
  · intro line words
    have h := consumeLoop_spec line words []
    rw [show accumJoin ([] : List String) = "" from rfl] at h
    simp only [List.nil_append] at h
    exact h
  · intro l ls ws
    rfl

/-- Witness for C2: the grouping equation at a concrete line and buffer. -/
theorem claim_C2_witness :
    groupWords ["Hello", "second"] [⟨1, 0, 100000, "Hello"⟩] = ["Hello", ""] :=
  claim_C2.2.2 "Hello" ["second"] [⟨1, 0, 100000, "Hello"⟩]

/-- C6: after all reference lines are processed, each remaining unconsumed
buffered word becomes its own line-of-content in order; a starved line keeps
whatever it consumed (possibly the whole buffer) without error, and all
later lines receive no words; including the spec's starvation scenario. -/
theorem claim_C6 :
    (∀ (lines : List String) (ws : List Subtitle),
      ∃ parts : List String,
        groupWords lines ws = parts ++ (restAfter lines ws).map (fun w => w.content) ∧
        parts.length = lines.length) ∧
    (∀ (l : String) (ls : List String) (ws : List Subtitle),
      (consumeLoop l ws "").2 = [] →
        groupWords (l :: ls) ws =
          String.intercalate " " (consumeLoop l ws "").1 :: ls.map (fun _ => "")) ∧
    (groupWords ["xyz unmatched text", "second line"]
        [⟨1, 0, 100000, "Hello"⟩, ⟨2, 100000, 200000, "world"⟩] = ["Hello world", ""]) := by
  refine ⟨groupWords_restAfter, ?_, by decide⟩
  intro l ls ws h
  simp only [groupWords]
  rw [h, groupWords_nil_buffer]

/-- Witness for C6: the starved line `"xyz unmatched text"` absorbs both
buffered words and the following line gets none. -/
theorem claim_C6_witness :
    groupWords ["xyz unmatched text", "tail"]
        [⟨1, 0, 100000, "Hi"⟩, ⟨2, 100000, 200000, "there"⟩] = ["Hi there", ""] :=
  claim_C6.2.1 "xyz unmatched text" ["tail"]
    [⟨1, 0, 100000, "Hi"⟩, ⟨2, 100000, 200000, "there"⟩] (by decide)

/-- C9: word conservation in Case B.  Flattening the per-line word groups
recovers exactly the buffered word texts in feed order (no word dropped or
duplicated), and the line-of-content strings are precisely the space-joins
of those groups (so in the final content, words within a group are
separated by one space and groups by line breaks). -/
theorem claim_C9 (lines : List String) (ws : List Subtitle) :
    (groupWordLists lines ws).flatten = ws.map (fun w => w.content) ∧
    groupWords lines ws = (groupWordLists lines ws).map (fun g => String.intercalate " " g) :=
  ⟨groupWordLists_flatten lines ws, groupWords_eq_lists lines ws⟩

/-- Witness for C9: on a two-word buffer and one matching reference line,
flattening the groups recovers both words and the content line is their
space-join. -/
theorem claim_C9_witness :
    (groupWordLists ["Hello world"] [⟨1, 0, 1, "Hello"⟩, ⟨2, 1, 2, "world"⟩]).flatten
        = ["Hello", "world"] ∧
    groupWords ["Hello world"] [⟨1, 0, 1, "Hello"⟩, ⟨2, 1, 2, "world"⟩] = ["Hello world"] :=
  ⟨(claim_C9 ["Hello world"] [⟨1, 0, 1, "Hello"⟩, ⟨2, 1, 2, "world"⟩]).1,
   (claim_C9 ["Hello world"] [⟨1, 0, 1, "Hello"⟩, ⟨2, 1, 2, "world"⟩]).2⟩

/-- C10: a reference line processed after the buffer is exhausted
contributes an empty line-of-content, so the combined content shows a blank
line for each such reference line; concretely, original text
`"Hello\nfoo\nbar"` with the single word `"Hello"` yields the content
`"Hello\n\n"`, which contains consecutive line breaks and ends with empty
lines. -/
theorem claim_C10 :
    (∀ lines : List String, groupWords lines [] = lines.map (fun _ => "")) ∧
    (∀ (l : String) (ls : List String) (ws : List Subtitle),
      restAfter [l] ws = [] →
        groupWords (l :: ls) ws =
          String.intercalate " " (consumeLoop l ws "").1 :: ls.map (fun _ => "")) ∧
    ((get_srt ((feed (mkSubMaker (some "Hello\nfoo\nbar"))
          ⟨"WordBoundary", "Hello", 0, 10⟩).2)).1.cues.map (fun c => c.content)
        = ["Hello\n\n"] ∧
      strContains "\n\n" "Hello\n\n" = true) := by
  refine ⟨groupWords_nil_buffer, ?_, by decide, by decide⟩
  intro l ls ws h
  have h' : (consumeLoop l ws "").2 = [] := h
  simp only [groupWords]
  rw [h', groupWords_nil_buffer]

/-- Witness for C10: with lines `"Hello"`, `"foo"`, `"bar"` and the single
buffered word `"Hello"`, the two starved lines yield empty strings. -/
theorem claim_C10_witness :
    groupWords ["Hello", "foo", "bar"] [⟨1, 0, 1, "Hello"⟩] = ["Hello", "", ""] :=
  claim_C10.2.1 "Hello" ["foo", "bar"] [⟨1, 0, 1, "Hello"⟩] (by decide)

/-- C1: Case B single-cue shape.  For a session whose original text yields a
non-empty reference-line list and whose non-empty buffer was fed only
WordBoundary events, the first finalization produces exactly one cue with
index 1, start equal to the first buffered event's start, end equal to the
last buffered event's end, and content equal to the per-line strings joined
with a line break, in order. -/
theorem claim_C1 (txt : String) (m0 : TTSChunk) (rest : List TTSChunk) (s : SubMaker)
    (hWB : ∀ m ∈ m0 :: rest, m.msgType = "WordBoundary")
    (htxt : ¬(txt = "")) (hlines : linesOf txt ≠ [])
    (hfeed : feedMany (mkSubMaker (some txt)) (m0 :: rest) = Except.ok s) :
    (get_srt s).1.cues =
      [{ index := 1
         start := tickToMicro m0.offset
         end_ := tickToMicro ((rest.getLastD m0).offset + (rest.getLastD m0).duration)
         content := String.intercalate "\n"
           (groupWords (linesOf txt) (bufferOf 0 (m0 :: rest))) }] := by
  have hS := feedMany_valid "WordBoundary" (Or.inl rfl) (m0 :: rest)
    (mkSubMaker (some txt)) hWB (Or.inl rfl)
  rw [hfeed] at hS
  injection hS with hs
  obtain ⟨l0, ls0, hls⟩ := List.exists_cons_of_ne_nil hlines
  have hlg : s.line_groups = some (l0 :: ls0) := by
    rw [hs]
    show (mkSubMaker (some txt)).line_groups = _
    simp [mkSubMaker, htxt, hls]
  have hty : s.type = some "WordBoundary" := by rw [hs]; rfl
  have hbuf : s.all_words_buffer = mkSubtitle 0 m0 :: bufferOf 1 rest := by
    rw [hs]
    show (mkSubMaker (some txt)).all_words_buffer ++ _ = _
    simp [mkSubMaker, bufferOf]
  have hcues : s.cues = [] := by rw [hs]; rfl
  rw [get_srt_caseB s l0 ls0 _ _ hlg hty hbuf, hcues]
  simp only [List.nil_append]
  rw [hls]
  simp only [bufferOf, Nat.zero_add]
  rw [bufferOf_getLastD_end rest 1 0 m0]
  simp [mkSubtitle]

/-- Witness for C1: the spec's concrete scenario yields exactly the single
cue with start 0 µs, end 300000 µs and the line-break-joined content. -/
theorem claim_C1_witness :
    (get_srt sC1).1.cues =
      [{ index := 1, start := 0, end_ := 300000, content := "Hello world\nfoo" }] :=
  claim_C1 cTxt eHello [eWorld, eFoo] sC1 (by decide) (by decide) (by decide) rfl

/-- C4: Case A identity mapping.  When the reference-line list is absent or
empty, or the session kind is SentenceBoundary, or no events were fed,
finalization produces one cue per fed event in feed order, the i-th cue
having index i+1 (1-based), the i-th event's text as content, and start/end
converted from the event's offset and offset+duration. -/
theorem claim_C4 (txt : Option String) (k : String) (msgs : List TTSChunk) (s : SubMaker)
    (hk : k = "WordBoundary" ∨ k = "SentenceBoundary")
    (hmsgs : ∀ m ∈ msgs, m.msgType = k)
    (hcase : (mkSubMaker txt).line_groups = none ∨ (mkSubMaker txt).line_groups = some [] ∨
      k = "SentenceBoundary" ∨ msgs = [])
    (hfeed : feedMany (mkSubMaker txt) msgs = Except.ok s) :
    (get_srt s).1.cues = bufferOf 0 msgs ∧
    (get_srt s).1.cues.length = msgs.length ∧
    (∀ i, i < msgs.length →
      (get_srt s).1.cues.getD i dummySub =
        { index := i + 1
          start := tickToMicro (msgs.getD i dummyChunk).offset
          end_ := tickToMicro ((msgs.getD i dummyChunk).offset + (msgs.getD i dummyChunk).duration)
          content := (msgs.getD i dummyChunk).text }) := by
  have hS := feedMany_valid k hk msgs (mkSubMaker txt) hmsgs (Or.inl rfl)
  rw [hfeed] at hS
  injection hS with hs
  have hbuf : s.all_words_buffer = bufferOf 0 msgs := by rw [hs]; simp [mkSubMaker]
  have hlg : s.line_groups = (mkSubMaker txt).line_groups := by rw [hs]
  have hty : s.type = if msgs.isEmpty then none else some k := by rw [hs]; rfl
  have hA : (get_srt s).1.cues = s.all_words_buffer := by
    apply get_srt_caseA
    rcases hcase with hc | hc | hc | hc
    · exact Or.inl (truthyLines_false s (Or.inl (hlg.trans hc)))
    · exact Or.inl (truthyLines_false s (Or.inr (hlg.trans hc)))
    · right; left
      rw [hty, hc]
      split_ifs <;> simp
    · right; right
      rw [hbuf, hc]
      rfl
  refine ⟨hA.trans hbuf, ?_, ?_⟩
  · rw [hA, hbuf, bufferOf_length]
  · intro i hi
    rw [hA, hbuf, bufferOf_getD msgs 0 i hi]
    simp [mkSubtitle]

/-- Witness for C4: two SentenceBoundary events with no reference text give
two identity cues; the second has index 2, its own text and times. -/
theorem claim_C4_witness :
    (get_srt sC4).1.cues = bufferOf 0 [sb1, sb2] ∧
    (get_srt sC4).1.cues.getD 1 dummySub =
      { index := 2, start := 100000, end_ := 300000, content := "Two." } :=
  ⟨(claim_C4 none "SentenceBoundary" [sb1, sb2] sC4 (Or.inr rfl) (by decide)
      (Or.inl rfl) rfl).1,
   (claim_C4 none "SentenceBoundary" [sb1, sb2] sC4 (Or.inr rfl) (by decide)
      (Or.inl rfl) rfl).2.2 1 (by decide)⟩

/-- C8: cue timing invariant.  If all fed events have non-negative durations
and non-decreasing offsets, then every finalized cue satisfies start ≤ end,
and the cue starts are non-decreasing in sequence order. -/
theorem claim_C8 (txt : Option String) (k : String) (msgs : List TTSChunk) (s : SubMaker)
    (hk : k = "WordBoundary" ∨ k = "SentenceBoundary")
    (hmsgs : ∀ m ∈ msgs, m.msgType = k)
    (hdur : ∀ m ∈ msgs, 0 ≤ m.duration)
    (hord : List.Chain' (fun a b => a.offset ≤ b.offset) msgs)
    (hfeed : feedMany (mkSubMaker txt) msgs = Except.ok s) :
    (∀ c ∈ (get_srt s).1.cues, c.start ≤ c.end_) ∧
    List.Chain' (fun a b => a.start ≤ b.start) (get_srt s).1.cues := by
  have hS := feedMany_valid k hk msgs (mkSubMaker txt) hmsgs (Or.inl rfl)
  rw [hfeed] at hS
  injection hS with hs
  have hbuf : s.all_words_buffer = bufferOf 0 msgs := by
    rw [hs]
    show (mkSubMaker txt).all_words_buffer ++ _ = _
    simp [mkSubMaker]
  have hcues0 : s.cues = [] := by rw [hs]; rfl
  by_cases hcond : truthyLines s ∧ s.type = some "WordBoundary" ∧ s.all_words_buffer ≠ []
  · obtain ⟨h1, h2, h3⟩ := hcond
    have hl : ∃ l ls, s.line_groups = some (l :: ls) := by
      unfold truthyLines at h1
      rcases hlg : s.line_groups with _ | lg
      · rw [hlg] at h1; simp at h1
      · rcases lg with _ | ⟨l, ls⟩
        · rw [hlg] at h1; simp at h1
        · exact ⟨l, ls, rfl⟩
    obtain ⟨l, ls, hlg⟩ := hl
    have hmsgs_ne : msgs ≠ [] := by
      intro hnil
      apply h3
      rw [hbuf, hnil]
      rfl
    obtain ⟨m0, rest, hm⟩ := List.exists_cons_of_ne_nil hmsgs_ne
    subst hm
    have hbuf' : s.all_words_buffer = mkSubtitle 0 m0 :: bufferOf 1 rest := by rw [hbuf]; rfl
    rw [get_srt_caseB s l ls _ _ hlg h2 hbuf', hcues0]
    simp only [List.nil_append]
    constructor
    · intro c hc
      simp only [List.mem_singleton] at hc
      subst hc
      show (mkSubtitle 0 m0).start ≤ ((bufferOf 1 rest).getLastD (mkSubtitle 0 m0)).end_
      rw [bufferOf_getLastD_end rest 1 0 m0]
      have hlast_mem : rest.getLastD m0 ∈ m0 :: rest := getLastD_mem_cons' rest m0
      have hd := hdur _ hlast_mem
      have ho := chain_le_getLastD rest m0 hord
      show tickToMicro m0.offset ≤ _
      exact tickToMicro_mono (by omega)
    · exact List.chain'_singleton _
  · have hA : (get_srt s).1.cues = s.all_words_buffer := by
      simp [get_srt, hcond]
    rw [hA, hbuf]
    constructor
    · intro c hc
      obtain ⟨j, m, hm, hc'⟩ := bufferOf_mem msgs 0 hc
      subst hc'
      show tickToMicro m.offset ≤ tickToMicro (m.offset + m.duration)
      exact tickToMicro_mono (by have := hdur m hm; omega)
    · have hc2 : List.Chain' (fun a b : Int => a ≤ b)
          ((bufferOf 0 msgs).map (fun c => c.start)) := by
        rw [bufferOf_map_start msgs 0, List.chain'_map]
        exact hord.imp (fun a b hab => tickToMicro_mono hab)
      rw [List.chain'_map] at hc2
      exact hc2

/-- Witness for C8: a single SentenceBoundary event gives one cue with
start 0 µs ≤ end 100000 µs and trivially non-decreasing starts. -/
theorem claim_C8_witness :
    (Subtitle.mk 1 0 100000 "One.").start ≤ (Subtitle.mk 1 0 100000 "One.").end_ ∧
    List.Chain' (fun a b => a.start ≤ b.start) (get_srt sC8).1.cues :=
  ⟨(claim_C8 none "SentenceBoundary" [sb1] sC8 (Or.inr rfl) (by decide) (by decide)
      (by simp) rfl).1 ⟨1, 0, 100000, "One."⟩ (by decide),
   (claim_C8 none "SentenceBoundary" [sb1] sC8 (Or.inr rfl) (by decide) (by decide)
      (by simp) rfl).2⟩

end EdgeTTS
